import Mathlib

/-!
# Verification of the `financeiro-streamlit` normalization pipeline

Shallow embedding of the data-normalization core of `dashboard.py`:
money-string cleaning (`clean_money_series`), date-column normalization
(the `pd.to_datetime` day-first/month-first fallback), the column-role
picker (`pick`), the whole-table normalization (column projection,
`dropna(subset=["Data"])`, `fillna("Não informado").astype(str)`),
the top-N collapsing of the per-asset distribution, the per-bank
percentage table, and the CSV upload decode/parse loop.

Strings coming from cells that undergo character-level processing are
modelled as `List Char`; a missing cell (pandas `NaN`) is `none`.
Monetary values are modelled as `ℚ` (the source uses Python floats; all
properties below concern exact decimal strings, where the two agree).
-/

/-! ## Character classes -/

/-- ASCII decimal digit (the only digits the source data uses). -/
def isDigitC (c : Char) : Bool := 48 ≤ c.toNat && c.toNat ≤ 57

/-- Whitespace stripped by Python `str.strip()` (ASCII subset). -/
def isSpaceC (c : Char) : Bool := c = ' ' || c = '\t' || c = '\n' || c = '\r'

/-! ## `clean_money_series` (dashboard.py lines 41-50)

The source applies, to each cell of the series:
`.str.replace("R$", "", regex=False)` then `.str.replace(".", "", regex=False)`
then `.str.replace(",", ".", regex=False)` then `.str.strip()`, then maps the
empty string to `NaN` and converts with `.astype(float)` (which raises on any
remaining non-numeric string). Each `replace` is embedded by a dedicated
recursive function performing exactly that literal, left-to-right,
non-overlapping replacement. -/

/-- `.str.replace("R$", "", regex=False)`: delete every occurrence of `R$`. -/
def stripCurrency : List Char → List Char
  | [] => []
  | [a] => [a]
  | a :: b :: t => if a = 'R' ∧ b = '$' then stripCurrency t else a :: stripCurrency (b :: t)

/-- `.str.replace(".", "", regex=False)`: delete every `.` (thousands separator). -/
def removeDots : List Char → List Char
  | [] => []
  | a :: t => if a = '.' then removeDots t else a :: removeDots t

/-- `.str.replace(",", ".", regex=False)`: turn the pt-BR decimal comma into `.`. -/
def commaToDot : List Char → List Char
  | [] => []
  | a :: t => (if a = ',' then '.' else a) :: commaToDot t

/-- `.str.strip()`: drop leading and trailing whitespace. -/
def trimStr (s : List Char) : List Char :=
  ((s.dropWhile isSpaceC).reverse.dropWhile isSpaceC).reverse

/-- The whole per-cell string cleaning chain of `clean_money_series`. -/
def cleanStr (s : List Char) : List Char :=
  trimStr (commaToDot (removeDots (stripCurrency s)))

/-- Digit string to natural number (most significant first). -/
def natOfDigits (ds : List Char) : ℕ :=
  ds.foldl (fun a c => 10 * a + (c.toNat - 48)) 0

/-- Unsigned part of Python `float(str)` on a plain decimal literal:
digits, optionally followed by `.` and fractional digits (at least one digit
overall). Exponents, `inf`/`nan` and underscores are not produced by the
cleaning chain on locale-format data and are not modelled. -/
def parseUnsigned (s : List Char) : Option ℚ :=
  let ip := s.takeWhile isDigitC
  match s.dropWhile isDigitC with
  | [] => if ip.isEmpty then none else some (natOfDigits ip : ℚ)
  | r :: fp =>
    if r = '.' then
      if (ip.isEmpty && fp.isEmpty) || !fp.all isDigitC then none
      else some ((natOfDigits ip : ℚ) + (natOfDigits fp : ℚ) / (10 : ℚ) ^ fp.length)
    else none

/-- Python `float(str)` on a plain (possibly signed) decimal literal. -/
def parseFloat (s : List Char) : Option ℚ :=
  match s with
  | [] => none
  | a :: t =>
    if a = '-' then (parseUnsigned t).map (fun q => -q)
    else if a = '+' then parseUnsigned t
    else parseUnsigned (a :: t)

/-- One cell of `clean_money_series`. `none` cell = source `NaN`
(`astype(str)` renders it `"nan"` and `float("nan")` is `NaN` again, i.e.
still missing). Result: `none` = the `astype(float)` conversion raises
(caught at dashboard.py line 124 and aborting the load);
`some none` = missing value (`NaN`); `some (some q)` = parsed number. -/
def cleanMoneyCell (c : Option (List Char)) : Option (Option ℚ) :=
  match c with
  | none => some none
  | some s =>
    let t := cleanStr s
    if t = [] then some none else (parseFloat t).map some

/-- `clean_money_series` on the whole `Valor` column: any raising cell
aborts the whole conversion (`astype(float)` is column-wide). -/
def cleanMoneySeries : List (Option (List Char)) → Option (List (Option ℚ))
  | [] => some []
  | c :: t =>
    match cleanMoneyCell c, cleanMoneySeries t with
    | some v, some vs => some (v :: vs)
    | _, _ => none

/-! ## Date normalization (dashboard.py lines 129-134)

`pd.to_datetime(col, errors="coerce", dayfirst=b)` is modelled per cell as a
parser of the two layouts the source data uses: slashed `X/Y/YYYY` and ISO
`YYYY-MM-DD` (the latter accepted identically by both modes). For the
slashed layout, `dayfirst` is — as pandas documents — a NON-strict
preference: the preferred reading (day first when `dayfirst=True`, month
first otherwise) is tried, and when it is invalid the day and month are
swapped (dateutil's behavior, e.g. `"03/25/2024"` parses to 2024-03-25
even with `dayfirst=True` since 25 cannot be a month). A cell failing both
readings coerces to `NaT` (`none`). Day-of-month validity is approximated
by `1..31` (the calendar refinement plays no role in any property
below). -/

structure Date where
  y : ℕ
  m : ℕ
  d : ℕ
deriving DecidableEq, Repr

/-- Split a char list on a separator (used for `/` and `-` date layouts). -/
def splitOnC (sep : Char) : List Char → List (List Char)
  | [] => [[]]
  | c :: t =>
    if c = sep then [] :: splitOnC sep t
    else
      match splitOnC sep t with
      | [] => [[c]]
      | g :: gs => (c :: g) :: gs

/-- All-digit nonempty component to a number. -/
def parseNatC (s : List Char) : Option ℕ :=
  if s ≠ [] ∧ s.all isDigitC then some (natOfDigits s) else none

def validYMD (y m d : ℕ) : Bool :=
  1 ≤ m && m ≤ 12 && 1 ≤ d && d ≤ 31 && 1 ≤ y

/-- The slashed `X/Y/YYYY` layout under a `dayfirst` PREFERENCE: the
preferred day/month assignment is used when valid, otherwise the two are
swapped (pandas: "dayfirst=True is not strict, but will prefer to parse
with day first"). -/
def parseSlashed (dayfirst : Bool) (a b c : List Char) : Option Date := do
  let x ← parseNatC a
  let yv ← parseNatC b
  let z ← parseNatC c
  let dd := if dayfirst then x else yv
  let mm := if dayfirst then yv else x
  if validYMD z mm dd then some ⟨z, mm, dd⟩
  else if validYMD z dd mm then some ⟨z, dd, mm⟩
  else none

/-- The ISO `YYYY-MM-DD` layout, `dayfirst`-independent. -/
def parseISO (a b c : List Char) : Option Date := do
  let yv ← parseNatC a
  let mo ← parseNatC b
  let dd ← parseNatC c
  if validYMD yv mo dd then some ⟨yv, mo, dd⟩ else none

/-- One cell of `pd.to_datetime(·, errors="coerce", dayfirst)` on a string
column. -/
def parseDateCell (dayfirst : Bool) (s : List Char) : Option Date :=
  match splitOnC '/' s with
  | [a, b, c] => parseSlashed dayfirst a b c
  | _ =>
    match splitOnC '-' s with
    | [a, b, c] => parseISO a b c
    | _ => none

/-- `pd.to_datetime(·, errors="coerce", dayfirst)` applied to the raw string
column (a missing cell is `NaT`). -/
def toDatetimeStrCol (dayfirst : Bool) (col : List (Option (List Char))) : List (Option Date) :=
  col.map (fun c => c.bind (parseDateCell dayfirst))

/-- `pd.to_datetime(·, errors="coerce", dayfirst)` applied to a column that
is ALREADY of datetime dtype (as `work["Data"]` is after line 130): dates
stay dates and `NaT` stays `NaT`, i.e. the call is the identity; `dayfirst`
is irrelevant because nothing is re-parsed from text. -/
def toDatetimeDtCol (_dayfirst : Bool) (col : List (Option Date)) : List (Option Date) :=
  col

/-- dashboard.py lines 130-133 as written: the first, day-first parse is
assigned back to `work["Data"]`, and the month-first "fallback" is run on
that already-coerced column. -/
def normalizeDatesCode (col : List (Option (List Char))) : List (Option Date) :=
  let d1 := toDatetimeStrCol true col
  if d1.all Option.isNone then toDatetimeDtCol false d1 else d1

/-- Modelled from the spec: the fallback described by the spec (and by the
comments at lines 129 and 132), re-parsing the ORIGINAL text column with
`dayfirst=False` when the day-first pass parsed zero rows. Used only to
compare against `normalizeDatesCode`. -/
def normalizeDatesSpec (col : List (Option (List Char))) : List (Option Date) :=
  let d1 := toDatetimeStrCol true col
  if d1.all Option.isNone then toDatetimeStrCol false col else d1

/-! ## Normalization (dashboard.py lines 118-138) -/

/-- One row of the projected raw table `work` (after line 119 the five
columns are renamed `Data, Valor, Banco, Tipo de Investimento,
Caracteristica`). A cell is `none` when the source cell is missing (`NaN`).
`Data`/`Valor` cells are kept at character level; the three label columns
need no character surgery and stay `String`. -/
structure RawRow where
  data : Option (List Char)
  valor : Option (List Char)
  banco : Option String
  tipo : Option String
  caract : Option String
deriving DecidableEq, Repr

/-- One row of the canonical table after normalization: the date is valid by
construction (rows whose date coerced to `NaT` were dropped at line 134),
the amount is whatever `clean_money_series` produced (possibly missing),
and the three labels are filled strings. -/
structure CanonRow where
  data : Date
  valor : Option ℚ
  banco : String
  tipo : String
  caract : String
deriving DecidableEq, Repr

/-- `fillna("Não informado")` then `.astype(str)` on one label cell
(line 138): the missing marker is replaced BEFORE the string coercion, and
the coercion on an already-string cell is the identity. -/
def fillCell (c : Option String) : String :=
  c.getD "Não informado"

/-- What line 138 would do with the two steps in the order the spec states
(`astype(str)` first, `fillna` second): `astype(str)` renders a missing
cell as the string `"nan"`, after which no cell is null and `fillna`
replaces nothing. Used only to compare against `fillCell`. -/
def fillCellSpecOrder (c : Option String) : String :=
  c.getD "nan"

/-- Lines 122-138: `dropna(subset=["Data"])` keeps exactly the rows whose
date parsed, pairing each surviving row with its cleaned amount and filled
labels. -/
def buildCanon : List RawRow → List (Option ℚ) → List (Option Date) → List CanonRow
  | r :: rs, v :: vs, some d :: ds =>
    ⟨d, v, fillCell r.banco, fillCell r.tipo, fillCell r.caract⟩ :: buildCanon rs vs ds
  | _ :: rs, _ :: vs, none :: ds => buildCanon rs vs ds
  | _, _, _ => []

/-- The whole normalization block: `clean_money_series` on `Valor` (a
conversion error aborts the load, lines 122-126), the date passes of lines
130-133, then `dropna(subset=["Data"])` and the label fills. -/
def normalizeTable (rows : List RawRow) : Option (List CanonRow) :=
  match cleanMoneySeries (rows.map (·.valor)) with
  | none => none
  | some vals => some (buildCanon rows vals (normalizeDatesCode (rows.map (·.data))))

/-! ## Column mapping (dashboard.py lines 104-113) -/

/-- `pick(label, default_guess)`: the sidebar selectbox offers only the
existing columns `cols`; its default index is the position of the guess
(`default_guess` when present, else `cols[0]`, else `None`), and with no
user interaction the selectbox yields the option at that index. -/
def pick (cols : List String) (default_guess : String) : Option String :=
  let guess : Option String :=
    if cols.contains default_guess then some default_guess else cols.head?
  let idx : ℕ :=
    match guess with
    | some g => if cols.contains g then cols.indexOf g else 0
    | none => 0
  cols.get? idx

/-! ## Aggregation (dashboard.py lines 196-202, 227-234)

`groupby(keys)["Valor"].sum()` groups a key/value sequence, summing the
values per key (pandas skips `NaN` in the sum, i.e. a missing amount
contributes `0`); `sort_values("Valor", ascending=False)` sorts the groups
by summed value, descending. Group order among equal sums is not relied on
by any property below (pandas emits keys alphabetically and its quicksort
is unstable; the model keeps first-occurrence order and sorts stably). -/

/-- Add one observation to the running per-key sums. -/
def addTo {κ : Type} [DecidableEq κ] (acc : List (κ × ℚ)) (k : κ) (v : ℚ) : List (κ × ℚ) :=
  match acc with
  | [] => [(k, v)]
  | (k', v') :: t => if k' = k then (k', v' + v) :: t else (k', v') :: addTo t k v

/-- `groupby(...)["Valor"].sum()`. -/
def groupSum {κ : Type} [DecidableEq κ] (l : List (κ × ℚ)) : List (κ × ℚ) :=
  l.foldl (fun acc kv => addTo acc kv.1 kv.2) []

/-- Descending-by-value comparison used by `sort_values("Valor", ascending=False)`. -/
def valGE {κ : Type} (a b : κ × ℚ) : Prop := b.2 ≤ a.2

instance {κ : Type} : DecidableRel (valGE (κ := κ)) := fun a b => inferInstanceAs (Decidable (b.2 ≤ a.2))

instance {κ : Type} : IsTotal (κ × ℚ) valGE := ⟨fun a b => le_total b.2 a.2⟩

instance {κ : Type} : IsTrans (κ × ℚ) valGE := ⟨fun _ _ _ h h' => le_trans h' h⟩

/-- `sort_values("Valor", ascending=False)`. -/
def sortValDesc {κ : Type} (l : List (κ × ℚ)) : List (κ × ℚ) :=
  l.insertionSort valGE

/-- Line 196: `dist_char_total = work.groupby("Caracteristica")["Valor"].sum()
.sort_values(ascending=False)` (a missing amount sums as `0`). -/
def distCharTotal (canon : List CanonRow) : List (String × ℚ) :=
  sortValDesc (groupSum (canon.map (fun c => (c.caract, c.valor.getD 0))))

/-- Lines 197-202: keep the `topN` head groups and append one synthetic
`"Outros"` group carrying the sum of every group past rank `topN`; when the
group count does not exceed `topN`, the distribution is passed through. -/
def collapseTopChar (topN : ℕ) (canon : List CanonRow) : List (String × ℚ) :=
  let d := distCharTotal canon
  if topN < d.length then
    d.take topN ++ [("Outros", ((d.drop topN).map Prod.snd).sum)]
  else d

/-- Line 176: `por_banco = work.groupby("Banco")["Valor"].sum()
.sort_values(ascending=False)`. -/
def porBanco (canon : List CanonRow) : List (String × ℚ) :=
  sortValDesc (groupSum (canon.map (fun c => (c.banco, c.valor.getD 0))))

/-- Line 228: `df_b = work[work["Banco"] == banco]`. -/
def bankRows (canon : List CanonRow) (banco : String) : List CanonRow :=
  canon.filter (fun c => c.banco = banco)

/-- Line 229: `total_banco = df_b["Valor"].sum()` (`NaN` amounts sum as `0`). -/
def bankTotal (canon : List CanonRow) (banco : String) : ℚ :=
  ((bankRows canon banco).map (fun c => c.valor.getD 0)).sum

/-- Lines 230-233: `df_b.groupby(["Caracteristica", "Tipo de Investimento"])
["Valor"].sum().sort_values(ascending=False)`. -/
def bankDetail (canon : List CanonRow) (banco : String) : List ((String × String) × ℚ) :=
  sortValDesc (groupSum ((bankRows canon banco).map (fun c => ((c.caract, c.tipo), c.valor.getD 0))))

/-- `numpy.round` ties-to-even on a rational. -/
def roundHalfEven (x : ℚ) : ℤ :=
  let f := ⌊x⌋
  if x - f < 1 / 2 then f
  else if 1 / 2 < x - f then f + 1
  else if 2 ∣ f then f else f + 1

/-- `.round(1)`. -/
def round1 (x : ℚ) : ℚ := (roundHalfEven (x * 10) : ℚ) / 10

/-- Line 234: `ativos_b["% no banco"] = (ativos_b["Valor"] / total_banco
* 100).round(1)`. The division is unguarded in the source; when
`total_banco` is `0` it is a float division by zero, whose result is not a
(finite) number — modelled as `none`. A nonzero total gives the rounded
percentage. -/
def pctNoBanco (canon : List CanonRow) (banco : String) : List ((String × String) × Option ℚ) :=
  (bankDetail canon banco).map (fun kv =>
    (kv.1, if bankTotal canon banco = 0 then none
           else some (round1 (kv.2 / bankTotal canon banco * 100))))

/-! ## CSV upload (dashboard.py lines 82-96)

`raw.decode(enc)` for `enc = "utf-8"` is strict UTF-8 decoding (failing on
malformed input); for `enc = "latin-1"` it maps each byte to the code point
of the same value and can never fail. `pd.read_csv(buffer, sep=None,
engine="python")` is modelled as: split the decoded text into non-blank
lines (no lines at all raises `EmptyDataError`), sniff the delimiter from
the header line (`;` or `,`; neither present raises a sniffer error), and
split the header and data lines on it (cell quoting plays no role in any
property below and is not modelled). The loop tries UTF-8 first and breaks
on the first decode+parse success; any exception moves on to Latin-1.
Afterwards, a `None` or empty result stops the load with an error and no
table. -/

/-- A byte of the uploaded buffer. -/
abbrev Byte := ℕ

def contByte (b : Byte) : Bool := 128 ≤ b && b < 192

/-- Strict UTF-8 decoding, `none` on malformed input (`bytes.decode("utf-8")`
raising `UnicodeDecodeError`). -/
def decodeUtf8 : List Byte → Option (List Char)
  | [] => some []
  | b :: rest =>
    if b < 128 then (decodeUtf8 rest).map (fun cs => Char.ofNat b :: cs)
    else if b < 194 then none
    else if b < 224 then
      match rest with
      | c1 :: r =>
        if contByte c1 then
          (decodeUtf8 r).map (fun cs => Char.ofNat ((b - 192) * 64 + (c1 - 128)) :: cs)
        else none
      | _ => none
    else if b < 240 then
      match rest with
      | c1 :: c2 :: r =>
        if contByte c1 && contByte c2 then
          let n := (b - 224) * 4096 + (c1 - 128) * 64 + (c2 - 128)
          if 2048 ≤ n && !(55296 ≤ n && n < 57344) then
            (decodeUtf8 r).map (fun cs => Char.ofNat n :: cs)
          else none
        else none
      | _ => none
    else if b < 245 then
      match rest with
      | c1 :: c2 :: c3 :: r =>
        if contByte c1 && contByte c2 && contByte c3 then
          let n := (b - 240) * 262144 + (c1 - 128) * 4096 + (c2 - 128) * 64 + (c3 - 128)
          if 65536 ≤ n && n < 1114112 then
            (decodeUtf8 r).map (fun cs => Char.ofNat n :: cs)
          else none
        else none
      | _ => none
    else none

/-- `raw.decode("latin-1")`: total on arbitrary bytes. -/
def decodeLatin1 (raw : List Byte) : List Char :=
  raw.map Char.ofNat

/-- A parsed raw table: header names and data rows. -/
structure Table where
  header : List (List Char)
  rows : List (List (List Char))
deriving DecidableEq, Repr

/-- `pd.read_csv(io.StringIO(text), sep=None, engine="python")`;
`none` = the call raised. -/
def parseCSV (text : List Char) : Option Table :=
  match (splitOnC '\n' text).filter (fun l => l ≠ []) with
  | [] => none
  | h :: t =>
    let delim : Option Char :=
      if h.contains ';' then some ';' else if h.contains ',' then some ',' else none
    match delim with
    | none => none
    | some d => some ⟨splitOnC d h, t.map (splitOnC d)⟩

/-- The `for enc in ("utf-8", "latin-1")` loop of lines 85-92: the UTF-8
attempt breaks on success (even when the parsed table is empty); any
exception in decode or parse leaves `df = None` and moves on to Latin-1. -/
def loadCSV (raw : List Byte) : Option Table :=
  match (decodeUtf8 raw).bind parseCSV with
  | some df => some df
  | none => parseCSV (decodeLatin1 raw)

/-- Lines 94-96: `if df is None or df.empty` shows an error and stops —
no table reaches the rest of the script. -/
def loadResult (raw : List Byte) : Option Table :=
  match loadCSV raw with
  | some df => if df.rows = [] then none else some df
  | none => none

/-! ## Character-class facts -/

lemma isSpaceC_cases {c : Char} (h : isSpaceC c = true) :
    c = ' ' ∨ c = '\t' ∨ c = '\n' ∨ c = '\r' := by
  simp [isSpaceC] at h
  tauto

lemma space_ne_R {c : Char} (h : isSpaceC c = true) : c ≠ 'R' := by
  rcases isSpaceC_cases h with rfl | rfl | rfl | rfl <;> decide

lemma space_ne_dot {c : Char} (h : isSpaceC c = true) : c ≠ '.' := by
  rcases isSpaceC_cases h with rfl | rfl | rfl | rfl <;> decide

lemma space_ne_comma {c : Char} (h : isSpaceC c = true) : c ≠ ',' := by
  rcases isSpaceC_cases h with rfl | rfl | rfl | rfl <;> decide

lemma digit_toNat_bounds {c : Char} (h : isDigitC c = true) :
    48 ≤ c.toNat ∧ c.toNat ≤ 57 := by
  simpa [isDigitC] using h

lemma digit_ne_R {c : Char} (h : isDigitC c = true) : c ≠ 'R' := by
  intro e; subst e; exact absurd h (by decide)

lemma digit_ne_dot {c : Char} (h : isDigitC c = true) : c ≠ '.' := by
  intro e; subst e; exact absurd h (by decide)

lemma digit_ne_comma {c : Char} (h : isDigitC c = true) : c ≠ ',' := by
  intro e; subst e; exact absurd h (by decide)

lemma digit_not_space {c : Char} (h : isDigitC c = true) : isSpaceC c = false := by
  rcases hb : isSpaceC c with _ | _
  · rfl
  · rcases isSpaceC_cases hb with rfl | rfl | rfl | rfl <;> exact absurd h (by decide)

lemma digit_ne_minus {c : Char} (h : isDigitC c = true) : c ≠ '-' := by
  intro e; subst e; exact absurd h (by decide)

lemma digit_ne_plus {c : Char} (h : isDigitC c = true) : c ≠ '+' := by
  intro e; subst e; exact absurd h (by decide)

/-! ## Lemmas about the cleaning chain -/

lemma stripCurrency_cons_ne {a : Char} (ha : a ≠ 'R') (t : List Char) :
    stripCurrency (a :: t) = a :: stripCurrency t := by
  cases t with
  | nil => rfl
  | cons b u =>
    show (if a = 'R' ∧ b = '$' then _ else _) = _
    rw [if_neg (fun h => ha h.1)]

lemma stripCurrency_no_R {s : List Char} (h : ∀ c ∈ s, c ≠ 'R') : stripCurrency s = s := by
  induction s with
  | nil => rfl
  | cons a t ih =>
    rw [stripCurrency_cons_ne (h a (by simp)) t, ih (fun c hc => h c (by simp [hc]))]

lemma stripCurrency_append_no_R {l : List Char} (r : List Char) (h : ∀ c ∈ l, c ≠ 'R') :
    stripCurrency (l ++ r) = l ++ stripCurrency r := by
  induction l with
  | nil => rfl
  | cons a t ih =>
    rw [List.cons_append, stripCurrency_cons_ne (h a (by simp)),
      ih (fun c hc => h c (by simp [hc])), List.cons_append]

lemma stripCurrency_marker (r : List Char) :
    stripCurrency ('R' :: '$' :: r) = stripCurrency r := by
  show (if _ ∧ _ then _ else _) = _
  rw [if_pos ⟨rfl, rfl⟩]

lemma removeDots_cons_ne {a : Char} (ha : a ≠ '.') (t : List Char) :
    removeDots (a :: t) = a :: removeDots t := by
  show (if a = '.' then _ else _) = _
  rw [if_neg ha]

lemma removeDots_cons_dot (t : List Char) : removeDots ('.' :: t) = removeDots t := by
  show (if _ then _ else _) = _
  rw [if_pos rfl]

lemma removeDots_no_dot {s : List Char} (h : ∀ c ∈ s, c ≠ '.') : removeDots s = s := by
  induction s with
  | nil => rfl
  | cons a t ih =>
    rw [removeDots_cons_ne (h a (by simp)), ih (fun c hc => h c (by simp [hc]))]

lemma removeDots_append (l r : List Char) :
    removeDots (l ++ r) = removeDots l ++ removeDots r := by
  induction l with
  | nil => rfl
  | cons a t ih =>
    by_cases ha : a = '.'
    · subst ha; rw [List.cons_append, removeDots_cons_dot, removeDots_cons_dot, ih]
    · rw [List.cons_append, removeDots_cons_ne ha, removeDots_cons_ne ha, ih, List.cons_append]

lemma commaToDot_cons_ne {a : Char} (ha : a ≠ ',') (t : List Char) :
    commaToDot (a :: t) = a :: commaToDot t := by
  show (if a = ',' then _ else a) :: _ = _
  rw [if_neg ha]

lemma commaToDot_cons_comma (t : List Char) : commaToDot (',' :: t) = '.' :: commaToDot t := by
  simp [commaToDot]

lemma commaToDot_no_comma {s : List Char} (h : ∀ c ∈ s, c ≠ ',') : commaToDot s = s := by
  induction s with
  | nil => rfl
  | cons a t ih =>
    rw [commaToDot_cons_ne (h a (by simp)), ih (fun c hc => h c (by simp [hc]))]

lemma commaToDot_append (l r : List Char) :
    commaToDot (l ++ r) = commaToDot l ++ commaToDot r := by
  induction l with
  | nil => rfl
  | cons a t ih =>
    by_cases ha : a = ','
    · subst ha
      rw [List.cons_append, commaToDot_cons_comma, commaToDot_cons_comma, ih, List.cons_append]
    · rw [List.cons_append, commaToDot_cons_ne ha, commaToDot_cons_ne ha, ih, List.cons_append]

lemma dropWhile_append_all {p : Char → Bool} {ws : List Char} (x : List Char)
    (h : ∀ c ∈ ws, p c = true) :
    (ws ++ x).dropWhile p = x.dropWhile p := by
  induction ws with
  | nil => rfl
  | cons a t ih =>
    rw [List.cons_append, List.dropWhile_cons, if_pos (by simp [h a (by simp)]),
      ih (fun c hc => h c (by simp [hc]))]

lemma dropWhile_cons_not {p : Char → Bool} {a : Char} (t : List Char) (h : p a = false) :
    (a :: t).dropWhile p = a :: t := by
  rw [List.dropWhile_cons, if_neg (by simp [h])]

lemma trimStr_concat (ws ws' core : List Char)
    (hws : ∀ c ∈ ws, isSpaceC c = true) (hws' : ∀ c ∈ ws', isSpaceC c = true)
    (h1 : ∃ a t, core = a :: t ∧ isSpaceC a = false)
    (h2 : ∃ u b, core = u ++ [b] ∧ isSpaceC b = false) :
    trimStr (ws ++ core ++ ws') = core := by
  obtain ⟨a, t, hc1, ha⟩ := h1
  obtain ⟨u, b, hc2, hb⟩ := h2
  unfold trimStr
  have e1 : (ws ++ core ++ ws').dropWhile isSpaceC = core ++ ws' := by
    rw [List.append_assoc, dropWhile_append_all _ hws, hc1, List.cons_append,
      dropWhile_cons_not _ ha, ← List.cons_append, ← hc1]
  rw [e1]
  have e2 : (core ++ ws').reverse.dropWhile isSpaceC = core.reverse := by
    rw [List.reverse_append,
      dropWhile_append_all _ (fun c hc => hws' c (List.mem_reverse.mp hc)), hc2,
      List.reverse_append, List.reverse_singleton, List.singleton_append,
      dropWhile_cons_not _ hb]
  rw [e2, List.reverse_reverse]

lemma takeWhile_append_stop {p : Char → Bool} {xs : List Char} {y : Char} (r : List Char)
    (hxs : ∀ c ∈ xs, p c = true) (hy : p y = false) :
    (xs ++ y :: r).takeWhile p = xs := by
  induction xs with
  | nil => rw [List.nil_append, List.takeWhile_cons, if_neg (by simp [hy])]
  | cons a t ih =>
    rw [List.cons_append, List.takeWhile_cons, if_pos (by simp [hxs a (by simp)]),
      ih (fun c hc => hxs c (by simp [hc]))]

lemma dropWhile_append_stop {p : Char → Bool} {xs : List Char} {y : Char} (r : List Char)
    (hxs : ∀ c ∈ xs, p c = true) (hy : p y = false) :
    (xs ++ y :: r).dropWhile p = y :: r := by
  induction xs with
  | nil => rw [List.nil_append, List.dropWhile_cons, if_neg (by simp [hy])]
  | cons a t ih =>
    rw [List.cons_append, List.dropWhile_cons, if_pos (by simp [hxs a (by simp)]),
      ih (fun c hc => hxs c (by simp [hc]))]

lemma parseUnsigned_digits_dot (ip fp : List Char)
    (hip : ∀ c ∈ ip, isDigitC c = true) (hip0 : ip ≠ [])
    (hfp : ∀ c ∈ fp, isDigitC c = true) :
    parseUnsigned (ip ++ '.' :: fp)
      = some ((natOfDigits ip : ℚ) + (natOfDigits fp : ℚ) / (10 : ℚ) ^ fp.length) := by
  have hall : fp.all isDigitC = true := List.all_eq_true.mpr (fun c hc => hfp c hc)
  unfold parseUnsigned
  rw [takeWhile_append_stop fp hip (by decide), dropWhile_append_stop fp hip (by decide)]
  simp [hip0, hall, List.isEmpty_iff]

lemma parseFloat_head_digit {a : Char} (t : List Char) (ha : isDigitC a = true) :
    parseFloat (a :: t) = parseUnsigned (a :: t) := by
  show (if a = '-' then (parseUnsigned t).map (fun q => -q)
        else if a = '+' then parseUnsigned t
        else parseUnsigned (a :: t)) = parseUnsigned (a :: t)
  rw [if_neg (digit_ne_minus ha), if_neg (digit_ne_plus ha)]

lemma parseFloat_minus (t : List Char) :
    parseFloat ('-' :: t) = (parseUnsigned t).map (fun q => -q) := by
  show (if ('-' : Char) = '-' then (parseUnsigned t).map (fun q => -q)
        else if ('-' : Char) = '+' then parseUnsigned t
        else parseUnsigned ('-' :: t)) = (parseUnsigned t).map (fun q => -q)
  rw [if_pos rfl]

/-! ## The Brazilian locale amount format (spec side, for C3)

A locale-format amount string: optional surrounding whitespace, an optional
`R$` currency marker (with optional whitespace after it), an optional `-`
sign, digit groups separated by `.` thousands separators, and a `,` decimal
separator followed by fractional digits. Its value is the denoted decimal,
sign preserved. These definitions follow the spec's words and are only ever
compared against the cleaning chain embedded from the source. -/

/-- Digit groups joined by the `.` thousands separator. -/
def joinDots : List (List Char) → List Char
  | [] => []
  | [g] => g
  | g :: gs => g ++ '.' :: joinDots gs

/-- Render a locale-format amount string from its parts. -/
def localeRender (rs neg : Bool) (wsA wsB wsC : List Char)
    (groups : List (List Char)) (frac : List Char) : List Char :=
  wsA ++ (if rs then ['R', '$'] else []) ++ wsB ++ (if neg then ['-'] else [])
    ++ joinDots groups ++ ',' :: frac ++ wsC

/-- The numeric value such a string denotes. -/
def localeValue (neg : Bool) (groups : List (List Char)) (frac : List Char) : ℚ :=
  let v := (natOfDigits groups.flatten : ℚ) + (natOfDigits frac : ℚ) / (10 : ℚ) ^ frac.length
  if neg then -v else v

lemma joinDots_cons_cons (g g2 : List Char) (gs : List (List Char)) :
    joinDots (g :: g2 :: gs) = g ++ '.' :: joinDots (g2 :: gs) := rfl

lemma mem_joinDots {c : Char} {gs : List (List Char)} (h : c ∈ joinDots gs) :
    c = '.' ∨ ∃ g ∈ gs, c ∈ g := by
  induction gs with
  | nil => simp [joinDots] at h
  | cons g t ih =>
    cases t with
    | nil =>
      simp only [joinDots] at h
      exact Or.inr ⟨g, by simp, h⟩
    | cons g2 t2 =>
      rw [joinDots_cons_cons] at h
      rcases List.mem_append.mp h with h | h
      · exact Or.inr ⟨g, by simp, h⟩
      · rcases List.mem_cons.mp h with rfl | h
        · exact Or.inl rfl
        · rcases ih h with h | ⟨g', hg', hc⟩
          · exact Or.inl h
          · exact Or.inr ⟨g', by simp [hg'], hc⟩

lemma removeDots_joinDots {gs : List (List Char)}
    (h : ∀ g ∈ gs, ∀ c ∈ g, isDigitC c = true) :
    removeDots (joinDots gs) = gs.flatten := by
  induction gs with
  | nil => rfl
  | cons g t ih =>
    cases t with
    | nil =>
      show removeDots (joinDots [g]) = List.flatten [g]
      simp only [joinDots, List.flatten_cons, List.flatten_nil, List.append_nil]
      exact removeDots_no_dot (fun c hc => digit_ne_dot (h g (by simp) c hc))
    | cons g2 t2 =>
      rw [joinDots_cons_cons, removeDots_append, removeDots_cons_dot, List.flatten_cons,
        removeDots_no_dot (fun c hc => digit_ne_dot (h g (by simp) c hc)),
        ih (fun g' hg' c hc => h g' (by simp [hg']) c hc)]

lemma join_digits {gs : List (List Char)} (h : ∀ g ∈ gs, ∀ c ∈ g, isDigitC c = true) :
    ∀ c ∈ gs.flatten, isDigitC c = true := by
  intro c hc
  obtain ⟨g, hg, hcg⟩ := List.mem_flatten.mp hc
  exact h g hg c hcg

lemma join_ne_nil {gs : List (List Char)} (h0 : gs ≠ []) (h1 : ∀ g ∈ gs, g ≠ []) :
    gs.flatten ≠ [] := by
  cases gs with
  | nil => exact absurd rfl h0
  | cons g t =>
    rw [List.flatten_cons]
    cases hg : g with
    | nil => exact absurd hg (h1 g (by simp))
    | cons a u => simp

lemma head_decomp {l : List Char} (r : List Char) (hl : l ≠ [])
    (hd : ∀ c ∈ l, isDigitC c = true) :
    ∃ a t, l ++ r = a :: t ∧ isSpaceC a = false := by
  cases l with
  | nil => exact absurd rfl hl
  | cons a u => exact ⟨a, u ++ r, by simp, digit_not_space (hd a (by simp))⟩

/-- The cleaning chain of `clean_money_series` turns any rendered
locale-format amount into the plain decimal literal `[sign] digits . digits`. -/
lemma cleanStr_locale (rs neg : Bool) (wsA wsB wsC : List Char)
    (groups : List (List Char)) (frac : List Char)
    (hA : ∀ c ∈ wsA, isSpaceC c = true) (hB : ∀ c ∈ wsB, isSpaceC c = true)
    (hC : ∀ c ∈ wsC, isSpaceC c = true)
    (hg0 : groups ≠ []) (hg1 : ∀ g ∈ groups, g ≠ [])
    (hgd : ∀ g ∈ groups, ∀ c ∈ g, isDigitC c = true)
    (hf0 : frac ≠ []) (hfd : ∀ c ∈ frac, isDigitC c = true) :
    cleanStr (localeRender rs neg wsA wsB wsC groups frac)
      = (if neg then ['-'] else []) ++ (groups.flatten ++ '.' :: frac) := by
  have hsignmem : ∀ c ∈ (if neg then ['-'] else ([] : List Char)), c = '-' := by
    cases neg <;> simp
  have hrender : localeRender rs neg wsA wsB wsC groups frac
      = wsA ++ ((if rs then ['R', '$'] else [])
          ++ (wsB ++ ((if neg then ['-'] else [])
            ++ (joinDots groups ++ (',' :: (frac ++ wsC)))))) := by
    simp [localeRender, List.append_assoc]
  have hrestR : ∀ c ∈ wsB ++ ((if neg then ['-'] else [])
      ++ (joinDots groups ++ (',' :: (frac ++ wsC)))), c ≠ 'R' := by
    intro c hc
    rcases List.mem_append.mp hc with h | hc2
    · exact space_ne_R (hB c h)
    rcases List.mem_append.mp hc2 with h | hc3
    · rw [hsignmem c h]; decide
    rcases List.mem_append.mp hc3 with h | hc4
    · rcases mem_joinDots h with rfl | ⟨g, hg, hcg⟩
      · decide
      · exact digit_ne_R (hgd g hg c hcg)
    rcases List.mem_cons.mp hc4 with rfl | hc5
    · decide
    rcases List.mem_append.mp hc5 with h | h
    · exact digit_ne_R (hfd c h)
    · exact space_ne_R (hC c h)
  have hstrip : stripCurrency (localeRender rs neg wsA wsB wsC groups frac)
      = wsA ++ (wsB ++ ((if neg then ['-'] else [])
          ++ (joinDots groups ++ (',' :: (frac ++ wsC))))) := by
    rw [hrender]
    cases rs
    · rw [if_neg (by simp), List.nil_append]
      rw [stripCurrency_append_no_R _ (fun c hc => space_ne_R (hA c hc)),
        stripCurrency_no_R hrestR]
    · rw [if_pos rfl]
      rw [stripCurrency_append_no_R _ (fun c hc => space_ne_R (hA c hc))]
      show wsA ++ stripCurrency ('R' :: '$' :: _) = _
      rw [stripCurrency_marker]
      show wsA ++ stripCurrency (wsB ++ ((if neg then ['-'] else [])
        ++ (joinDots groups ++ (',' :: (frac ++ wsC))))) = _
      rw [stripCurrency_no_R hrestR]
  have hsign_nd : removeDots (if neg then ['-'] else []) = (if neg then ['-'] else []) :=
    removeDots_no_dot (fun c hc => by rw [hsignmem c hc]; decide)
  have hsign_nc : commaToDot (if neg then ['-'] else []) = (if neg then ['-'] else []) :=
    commaToDot_no_comma (fun c hc => by rw [hsignmem c hc]; decide)
  have hdots : removeDots (wsA ++ (wsB ++ ((if neg then ['-'] else [])
      ++ (joinDots groups ++ (',' :: (frac ++ wsC))))))
      = wsA ++ (wsB ++ ((if neg then ['-'] else [])
          ++ (groups.flatten ++ (',' :: (frac ++ wsC))))) := by
    simp only [removeDots_append]
    rw [removeDots_no_dot (fun c hc => space_ne_dot (hA c hc)),
      removeDots_no_dot (fun c hc => space_ne_dot (hB c hc)),
      hsign_nd, removeDots_joinDots hgd,
      removeDots_cons_ne (by decide), removeDots_append,
      removeDots_no_dot (fun c hc => digit_ne_dot (hfd c hc)),
      removeDots_no_dot (fun c hc => space_ne_dot (hC c hc))]
  have hcomma : commaToDot (wsA ++ (wsB ++ ((if neg then ['-'] else [])
      ++ (groups.flatten ++ (',' :: (frac ++ wsC))))))
      = wsA ++ (wsB ++ ((if neg then ['-'] else [])
          ++ (groups.flatten ++ ('.' :: (frac ++ wsC))))) := by
    simp only [commaToDot_append]
    rw [commaToDot_no_comma (fun c hc => space_ne_comma (hA c hc)),
      commaToDot_no_comma (fun c hc => space_ne_comma (hB c hc)),
      hsign_nc,
      commaToDot_no_comma (fun c hc => digit_ne_comma (join_digits hgd c hc)),
      commaToDot_cons_comma, commaToDot_append,
      commaToDot_no_comma (fun c hc => digit_ne_comma (hfd c hc)),
      commaToDot_no_comma (fun c hc => space_ne_comma (hC c hc))]
  have htrim : trimStr (wsA ++ (wsB ++ ((if neg then ['-'] else [])
      ++ (groups.flatten ++ ('.' :: (frac ++ wsC))))))
      = (if neg then ['-'] else []) ++ (groups.flatten ++ '.' :: frac) := by
    have hshape : wsA ++ (wsB ++ ((if neg then ['-'] else [])
        ++ (groups.flatten ++ ('.' :: (frac ++ wsC)))))
        = (wsA ++ wsB) ++ ((if neg then ['-'] else [])
            ++ (groups.flatten ++ '.' :: frac)) ++ wsC := by
      simp [List.append_assoc]
    rw [hshape]
    apply trimStr_concat
    · intro c hc
      rcases List.mem_append.mp hc with h | h
      · exact hA c h
      · exact hB c h
    · exact hC
    · cases neg
      · rw [if_neg (by simp), List.nil_append]
        exact head_decomp _ (join_ne_nil hg0 hg1) (join_digits hgd)
      · exact ⟨'-', groups.flatten ++ '.' :: frac, by rw [if_pos rfl]; rfl, by decide⟩
    · rcases List.eq_nil_or_concat frac with rfl | ⟨u, b, hub⟩
      · exact absurd rfl hf0
      · refine ⟨(if neg then ['-'] else []) ++ (groups.flatten ++ '.' :: u), b, ?_, ?_⟩
        · rw [hub]; simp [List.append_assoc]
        · exact digit_not_space (hfd b (by rw [hub]; simp))
  show trimStr (commaToDot (removeDots (stripCurrency _))) = _
  rw [hstrip, hdots, hcomma, htrim]

/-- C3: for every amount string in the Brazilian locale format — `.` as
thousands separator, `,` as decimal separator, optional `R$` currency
prefix, optional sign, surrounding whitespace — `clean_money_series`
yields the exact denoted value: the currency marker is stripped, thousands
separators removed, the decimal comma becomes a period, whitespace is
trimmed, and the sign is preserved (so `"R$ 1.234,56" ↦ 1234.56`,
`"1234,56" ↦ 1234.56`, `"-10,00" ↦ -10`). -/
theorem clean_money_parses_locale (rs neg : Bool) (wsA wsB wsC : List Char)
    (groups : List (List Char)) (frac : List Char)
    (hA : ∀ c ∈ wsA, isSpaceC c = true) (hB : ∀ c ∈ wsB, isSpaceC c = true)
    (hC : ∀ c ∈ wsC, isSpaceC c = true)
    (hg0 : groups ≠ []) (hg1 : ∀ g ∈ groups, g ≠ [])
    (hgd : ∀ g ∈ groups, ∀ c ∈ g, isDigitC c = true)
    (hf0 : frac ≠ []) (hfd : ∀ c ∈ frac, isDigitC c = true) :
    cleanMoneyCell (some (localeRender rs neg wsA wsB wsC groups frac))
      = some (some (localeValue neg groups frac)) := by
  have hclean := cleanStr_locale rs neg wsA wsB wsC groups frac hA hB hC hg0 hg1 hgd hf0 hfd
  have hcell : cleanMoneyCell (some (localeRender rs neg wsA wsB wsC groups frac))
      = if cleanStr (localeRender rs neg wsA wsB wsC groups frac) = []
        then some none
        else (parseFloat (cleanStr (localeRender rs neg wsA wsB wsC groups frac))).map some := rfl
  rw [hcell, hclean]
  have hne : (if neg then ['-'] else []) ++ (groups.flatten ++ '.' :: frac) ≠ [] := by
    intro h
    rcases List.append_eq_nil.mp h with ⟨_, h2⟩
    rcases List.append_eq_nil.mp h2 with ⟨_, h3⟩
    exact List.cons_ne_nil _ _ h3
  rw [if_neg hne]
  cases neg
  · rw [if_neg (by simp), List.nil_append]
    cases hfl : groups.flatten with
    | nil => exact absurd hfl (join_ne_nil hg0 hg1)
    | cons a u =>
      have ha : isDigitC a = true := join_digits hgd a (by rw [hfl]; simp)
      rw [List.cons_append, parseFloat_head_digit _ ha, ← List.cons_append, ← hfl,
        parseUnsigned_digits_dot groups.flatten frac (join_digits hgd)
          (join_ne_nil hg0 hg1) hfd]
      simp [localeValue]
  · rw [if_pos rfl]
    show (parseFloat ('-' :: (groups.flatten ++ '.' :: frac))).map some = _
    rw [parseFloat_minus,
      parseUnsigned_digits_dot groups.flatten frac (join_digits hgd)
        (join_ne_nil hg0 hg1) hfd]
    simp [localeValue]

/-- Witness for C3 at `"R$ 1.234,56"` and `"-10,00"`. -/
theorem clean_money_parses_locale_witness :
    cleanMoneyCell (some ("R$ 1.234,56".toList)) = some (some ((123456 : ℚ) / 100))
    ∧ cleanMoneyCell (some ("-10,00".toList)) = some (some (-10 : ℚ)) := by
  constructor
  · have h := clean_money_parses_locale true false [] [' '] [] [['1'], ['2', '3', '4']]
      ['5', '6'] (by decide) (by decide) (by decide) (by decide) (by decide) (by decide)
      (by decide) (by decide)
    rw [show localeRender true false [] [' '] [] [['1'], ['2', '3', '4']] ['5', '6']
        = "R$ 1.234,56".toList from by decide] at h
    rw [h]
    have hv : localeValue false [['1'], ['2', '3', '4']] ['5', '6'] = (123456 : ℚ) / 100 := by
      simp only [localeValue]
      rw [show natOfDigits (([['1'], ['2', '3', '4']] : List (List Char)).flatten) = 1234
          from by decide,
        show natOfDigits ['5', '6'] = 56 from by decide,
        show (['5', '6'] : List Char).length = 2 from rfl]
      norm_num
    rw [hv]
  · have h := clean_money_parses_locale false true [] [] [] [['1', '0']]
      ['0', '0'] (by decide) (by decide) (by decide) (by decide) (by decide) (by decide)
      (by decide) (by decide)
    rw [show localeRender false true [] [] [] [['1', '0']] ['0', '0']
        = "-10,00".toList from by decide] at h
    rw [h]
    have hv : localeValue true [['1', '0']] ['0', '0'] = (-10 : ℚ) := by
      simp only [localeValue]
      rw [show natOfDigits (([['1', '0']] : List (List Char)).flatten) = 10 from by decide,
        show natOfDigits ['0', '0'] = 0 from by decide,
        show (['0', '0'] : List Char).length = 2 from rfl]
      norm_num
    rw [hv]

/-- C7: an amount cell that is empty after the cleaning chain (currency
marker, separators and whitespace stripped away) is parsed as a missing
value, not as the number `0`. -/
theorem empty_after_cleaning_is_missing (s : List Char) (h : cleanStr s = []) :
    cleanMoneyCell (some s) = some none ∧ (none : Option ℚ) ≠ some 0 := by
  constructor
  · show (if cleanStr s = [] then some none else (parseFloat (cleanStr s)).map some) = some none
    rw [if_pos h]
  · simp

/-- Witness for C7 at `"R$ "`. -/
theorem empty_after_cleaning_is_missing_witness :
    cleanMoneyCell (some ("R$ ".toList)) = some none :=
  (empty_after_cleaning_is_missing ("R$ ".toList) (by decide)).1

/-- Because `dayfirst` is a non-strict preference that swaps when the
preferred reading is invalid, a slashed cell parses in one mode exactly
when it parses in the other (only the ambiguous interpretation differs). -/
lemma parseSlashed_isSome_mode (a b c : List Char) :
    (parseSlashed true a b c).isSome = (parseSlashed false a b c).isSome := by
  unfold parseSlashed
  cases parseNatC a with
  | none => rfl
  | some x =>
    cases parseNatC b with
    | none => rfl
    | some yv =>
      cases parseNatC c with
      | none => rfl
      | some z =>
        simp only [Option.some_bind]
        cases hv1 : validYMD z yv x <;> cases hv2 : validYMD z x yv <;>
          simp [hv1, hv2]

/-- Mode-independence of parse success for a whole cell: a date string the
month-first pass can parse is also parsed by the day-first pass (and vice
versa). -/
lemma parseDateCell_isSome_mode (s : List Char) :
    (parseDateCell true s).isSome = (parseDateCell false s).isSome := by
  unfold parseDateCell
  rcases hsp : splitOnC '/' s with _ | ⟨a, _ | ⟨b, _ | ⟨c, _ | ⟨d, t⟩⟩⟩⟩
  · rfl
  · rfl
  · rfl
  · exact parseSlashed_isSome_mode a b c
  · rfl

lemma parseDateCell_none_mode {s : List Char} (h : parseDateCell true s = none) :
    parseDateCell false s = none := by
  have hm := parseDateCell_isSome_mode s
  rw [h] at hm
  cases hf : parseDateCell false s with
  | none => rfl
  | some d => rw [hf] at hm; cases hm

/-- When the day-first pass parsed zero rows, the month-first pass on the
SAME original column also parses zero rows, cell by cell. -/
lemma toDatetimeStrCol_false_of_all_none {col : List (Option (List Char))}
    (h : (toDatetimeStrCol true col).all Option.isNone = true) :
    toDatetimeStrCol false col = toDatetimeStrCol true col := by
  induction col with
  | nil => rfl
  | cons c t ih =>
    simp only [toDatetimeStrCol, List.map_cons, List.all_cons, Bool.and_eq_true] at h ⊢
    obtain ⟨h1, h2⟩ := h
    have htail : List.map (fun c => c.bind (parseDateCell false)) t
        = List.map (fun c => c.bind (parseDateCell true)) t := ih h2
    cases c with
    | none => rw [htail]; rfl
    | some s =>
      have hnone : parseDateCell true s = none := by
        cases hp : parseDateCell true s with
        | none => rfl
        | some d => rw [Option.some_bind, hp] at h1; cases h1
      rw [htail, Option.some_bind, Option.some_bind, hnone, parseDateCell_none_mode hnone]

/-- C1: date parsing of the `Data` column is all-or-nothing per mode. The
whole column is parsed day-first first; the fallback branch is taken
exactly when zero rows of the column parsed day-first, and the code's
behavior coincides with re-parsing the entire original column month-first
(line 133 actually re-runs `to_datetime` on the already-coerced column,
but — parse success being mode-independent — this is observationally equal
to the spec's described retry on every input); the mode choice is
column-wide, the output being wholly one pass's result, never mixed per
row; and every row recoverable under month-first parsing is already
recovered by the non-strict day-first pass, hence present in the canonical
table's date column. -/
theorem date_parsing_all_or_nothing (col : List (Option (List Char))) :
    normalizeDatesCode col = normalizeDatesSpec col
    ∧ ((toDatetimeStrCol true col).all Option.isNone = false →
        normalizeDatesCode col = toDatetimeStrCol true col)
    ∧ ((toDatetimeStrCol true col).all Option.isNone = true →
        normalizeDatesCode col = toDatetimeStrCol false col)
    ∧ ∀ s : List Char, (parseDateCell false s).isSome = true →
        (parseDateCell true s).isSome = true := by
  have hcode : normalizeDatesCode col = toDatetimeStrCol true col := by
    show (if (toDatetimeStrCol true col).all Option.isNone
          then toDatetimeDtCol false (toDatetimeStrCol true col)
          else toDatetimeStrCol true col) = toDatetimeStrCol true col
    split <;> rfl
  have hspec : normalizeDatesSpec col
      = if (toDatetimeStrCol true col).all Option.isNone
        then toDatetimeStrCol false col
        else toDatetimeStrCol true col := rfl
  refine ⟨?_, fun _ => hcode, fun h => ?_, fun s hs => ?_⟩
  · rw [hcode, hspec]
    cases hall : (toDatetimeStrCol true col).all Option.isNone
    · rw [if_neg (by simp)]
    · rw [if_pos rfl, toDatetimeStrCol_false_of_all_none hall]
  · rw [hcode, toDatetimeStrCol_false_of_all_none h]
  · rw [parseDateCell_isSome_mode s]
    exact hs

/-- Witness for C1: a column with one parseable and one junk row sticks to
the day-first pass; a month-first-shaped date (`"03/25/2024"`) is already
parsed by the non-strict day-first pass. -/
theorem date_parsing_all_or_nothing_witness :
    normalizeDatesCode [some ("31/12/2024".toList), some ("xx".toList)]
      = toDatetimeStrCol true [some ("31/12/2024".toList), some ("xx".toList)]
    ∧ (parseDateCell true ("03/25/2024".toList)).isSome = true := by
  constructor
  · exact (date_parsing_all_or_nothing
      [some ("31/12/2024".toList), some ("xx".toList)]).2.1 (by decide)
  · exact (date_parsing_all_or_nothing []).2.2.2 ("03/25/2024".toList) (by decide)

/-- C2 counterexample: with raw columns `["A", "B"]` and the absent default
guess `"Valor"`, the picker silently selects column `"A"` — no
`MappingError` (or any error) is raised, and a different column is
substituted for the missing one. -/
theorem pick_silently_substitutes :
    pick ["A", "B"] "Valor" = some "A" ∧ ("A" : String) ≠ "Valor" := by decide

/-- C2 as amended: when a role's default guess is absent from the raw
table's columns, `pick` falls back to the first column (no error), and any
column it yields is one of the table's existing columns. -/
theorem pick_absent_guess_defaults_to_first (cols : List String) (g : String)
    (habs : cols.contains g = false) (hne : cols ≠ []) :
    pick cols g = cols.head? ∧ ∀ c, pick cols g = some c → c ∈ cols := by
  cases cols with
  | nil => exact absurd rfl hne
  | cons h t =>
    have hp : pick (h :: t) g = some h := by
      unfold pick
      rw [habs]
      simp [List.indexOf_cons_self]
    constructor
    · rw [hp]; rfl
    · intro c hc
      rw [hp] at hc
      cases hc
      exact List.mem_cons_self h t

/-- Witness for the amended C2 at columns `["C", "D"]`, guess `"Valor"`. -/
theorem pick_absent_guess_witness : pick ["C", "D"] "Valor" = some "C" := by
  have h := (pick_absent_guess_defaults_to_first ["C", "D"] "Valor" (by decide) (by decide)).1
  rw [h]; rfl

lemma cleanMoneySeries_length {l : List (Option (List Char))} {vals : List (Option ℚ)}
    (h : cleanMoneySeries l = some vals) : vals.length = l.length := by
  induction l generalizing vals with
  | nil =>
    simp only [cleanMoneySeries] at h
    cases h
    rfl
  | cons c t ih =>
    simp only [cleanMoneySeries] at h
    cases hc : cleanMoneyCell c with
    | none => rw [hc] at h; cases h
    | some v =>
      cases ht : cleanMoneySeries t with
      | none => rw [hc, ht] at h; cases h
      | some vs =>
        rw [hc, ht] at h
        cases h
        simp [ih ht]

lemma normalizeDatesCode_length (col : List (Option (List Char))) :
    (normalizeDatesCode col).length = col.length := by
  show (if _ then toDatetimeDtCol false (toDatetimeStrCol true col)
        else toDatetimeStrCol true col).length = _
  split <;> simp [toDatetimeDtCol, toDatetimeStrCol]

lemma buildCanon_map_data : ∀ (rows : List RawRow) (vals : List (Option ℚ))
    (dates : List (Option Date)), vals.length = rows.length → dates.length = rows.length →
    (buildCanon rows vals dates).map (fun c => c.data) = dates.filterMap id
  | [], vals, dates, hv, hd => by
    rw [List.length_nil, List.length_eq_zero] at hv hd
    subst hv; subst hd
    rfl
  | r :: rs, vals, dates, hv, hd => by
    cases vals with
    | nil => cases hv
    | cons v vs =>
      cases dates with
      | nil => cases hd
      | cons d? ds =>
        have hv' : vs.length = rs.length := by simpa using hv
        have hd' : ds.length = rs.length := by simpa using hd
        cases d? with
        | none =>
          show (buildCanon rs vs ds).map (fun c => c.data) = List.filterMap id (none :: ds)
          rw [show List.filterMap id (none :: ds) = List.filterMap id ds from by simp,
            buildCanon_map_data rs vs ds hv' hd']
        | some d =>
          show d :: (buildCanon rs vs ds).map (fun c => c.data)
              = List.filterMap id (some d :: ds)
          rw [show List.filterMap id (some d :: ds) = d :: List.filterMap id ds from by simp,
            buildCanon_map_data rs vs ds hv' hd']

/-- C4 as amended: normalization validates only the date: the canonical
rows are (in order) exactly the raw rows whose `Data` cell survived the
date passes, each carrying its parsed date; the amount is NOT validated
for presence — a row whose cleaned amount is missing is retained with a
missing amount (only a raising `astype(float)` aborts, and then no table
is produced at all). -/
theorem canonical_dates_are_the_parsed_dates (rows : List RawRow) (canon : List CanonRow)
    (h : normalizeTable rows = some canon) :
    canon.map (fun c => c.data)
      = (normalizeDatesCode (rows.map (fun r => r.data))).filterMap id := by
  unfold normalizeTable at h
  cases hc : cleanMoneySeries (rows.map (fun r => r.valor)) with
  | none => rw [hc] at h; cases h
  | some vals =>
    rw [hc] at h
    cases h
    exact buildCanon_map_data rows vals _
      (by rw [cleanMoneySeries_length hc, List.length_map])
      (by rw [normalizeDatesCode_length, List.length_map])

/-- C4 counterexample: a raw row with a parseable date but a missing
amount is NOT excluded — it reaches the canonical table with a missing
(`NaN`) amount, contradicting "every CanonicalRecord has a numeric
amount". -/
theorem canonical_row_with_missing_amount :
    normalizeTable [⟨some ("01/03/2024".toList), none, some "Nubank", some "RF", some "CDB"⟩]
      = some [⟨⟨2024, 3, 1⟩, none, "Nubank", "RF", "CDB"⟩]
    ∧ (⟨⟨2024, 3, 1⟩, none, "Nubank", "RF", "CDB"⟩ : CanonRow).valor = none := by
  constructor
  · decide
  · rfl

/-- C6 counterexample: the sentinel fill at line 138 is `fillna` FIRST,
`astype(str)` second; had the replacement been applied after string
coercion (as the claim states), a missing cell would have been rendered
`"nan"` by the coercion and never replaced. The two orders disagree on a
missing cell. -/
theorem fill_order_counterexample :
    fillCell none = "Não informado" ∧ fillCellSpecOrder none = "nan"
    ∧ fillCell none ≠ fillCellSpecOrder none := by decide

/-- C6 as amended: missing institution / class / characteristic cells are
replaced by the fixed sentinel `"Não informado"` BEFORE string coercion
(`fillna` then `astype(str)`), which is exactly why the sentinel (and not
`"nan"`) appears and why the three canonical fields are never empty;
present values (numeric-looking ones included) pass through the string
coercion unchanged. -/
theorem fill_labels_sentinel (c : Option String)
    (hs : ∀ s, c = some s → s ≠ "") :
    fillCell c ≠ "" ∧ (c = none → fillCell c = "Não informado")
    ∧ (∀ s, c = some s → fillCell c = s) := by
  cases c with
  | none =>
    refine ⟨by decide, fun _ => rfl, fun s h => ?_⟩
    cases h
  | some s =>
    refine ⟨hs s rfl, fun h => ?_, fun s' h => ?_⟩
    · cases h
    · cases h
      rfl

/-- Witness for the amended C6 at a missing cell and at `"Nubank"`. -/
theorem fill_labels_sentinel_witness :
    fillCell none = "Não informado" ∧ fillCell (some "Nubank") = "Nubank" := by
  constructor
  · exact (fill_labels_sentinel none (fun s h => by cases h)).2.1 rfl
  · exact (fill_labels_sentinel (some "Nubank")
      (fun s h => by cases h; decide)).2.2 "Nubank" rfl

/-- C5: on the sorted per-asset distribution with `n` groups, collapsing at
`topN = k ≥ 1` with `n > k` yields exactly the `k` top-ranked (largest,
since the distribution is sorted descending) groups plus one synthetic
`"Outros"` group whose amount is the sum of the amounts of the excluded
groups ranked `k+1..n`; with `k ≥ n` the distribution passes through with
no synthetic group. -/
theorem topn_collapse_shape (canon : List CanonRow) (k : ℕ) (hk : 1 ≤ k) :
    (k < (distCharTotal canon).length →
      collapseTopChar k canon
          = (distCharTotal canon).take k
            ++ [("Outros", (((distCharTotal canon).drop k).map Prod.snd).sum)]
        ∧ (collapseTopChar k canon).length = k + 1
        ∧ ∀ x ∈ (distCharTotal canon).take k, ∀ y ∈ (distCharTotal canon).drop k, y.2 ≤ x.2)
    ∧ ((distCharTotal canon).length ≤ k → collapseTopChar k canon = distCharTotal canon) := by
  have hcol : collapseTopChar k canon
      = if k < (distCharTotal canon).length
        then (distCharTotal canon).take k
          ++ [("Outros", (((distCharTotal canon).drop k).map Prod.snd).sum)]
        else distCharTotal canon := rfl
  constructor
  · intro hlt
    refine ⟨by rw [hcol, if_pos hlt], ?_, ?_⟩
    · rw [hcol, if_pos hlt, List.length_append, List.length_take]
      simp only [List.length_cons, List.length_nil]
      omega
    · intro x hx y hy
      have hs : List.Sorted valGE (distCharTotal canon) :=
        List.sorted_insertionSort valGE _
      have hp : List.Pairwise valGE
          ((distCharTotal canon).take k ++ (distCharTotal canon).drop k) := by
        rw [List.take_append_drop]
        exact hs
      exact (List.pairwise_append.mp hp).2.2 x hx y hy
  · intro hle
    rw [hcol, if_neg (not_lt.mpr hle)]

/-- Witness for C5: two asset groups, `topN = 1`. -/
theorem topn_collapse_shape_witness :
    collapseTopChar 1 [⟨⟨2024, 3, 1⟩, some 1, "B", "T", "A1"⟩,
        ⟨⟨2024, 3, 1⟩, some 2, "B", "T", "A2"⟩]
      = [("A2", (2 : ℚ)), ("Outros", 1)] := by
  have h := ((topn_collapse_shape [⟨⟨2024, 3, 1⟩, some 1, "B", "T", "A1"⟩,
      ⟨⟨2024, 3, 1⟩, some 2, "B", "T", "A2"⟩] 1 (by norm_num)).1 (by decide)).1
  rw [h, show distCharTotal [⟨⟨2024, 3, 1⟩, some 1, "B", "T", "A1"⟩,
      ⟨⟨2024, 3, 1⟩, some 2, "B", "T", "A2"⟩]
    = [("A2", (2 : ℚ)), ("A1", 1)] from by decide]
  simp

/-- C9: collapsing at any `topN ≥ 1` preserves the total — the sum of the
amounts over the collapsed distribution (top groups plus `"Outros"` when
present) equals the sum over the full grouped distribution. -/
theorem topn_preserves_total (canon : List CanonRow) (k : ℕ) (hk : 1 ≤ k) :
    ((collapseTopChar k canon).map Prod.snd).sum
      = ((distCharTotal canon).map Prod.snd).sum := by
  have hcol : collapseTopChar k canon
      = if k < (distCharTotal canon).length
        then (distCharTotal canon).take k
          ++ [("Outros", (((distCharTotal canon).drop k).map Prod.snd).sum)]
        else distCharTotal canon := rfl
  rw [hcol]
  split
  · rw [List.map_append, List.sum_append, List.map_take]
    simp only [List.map_cons, List.map_nil, List.sum_cons, List.sum_nil, add_zero,
      List.map_drop]
    rw [List.sum_take_add_sum_drop]
  · rfl

/-- Witness for C9: two asset groups, `topN = 1`. -/
theorem topn_preserves_total_witness :
    ((collapseTopChar 1 [⟨⟨2024, 3, 1⟩, some 1, "B", "T", "A1"⟩,
        ⟨⟨2024, 3, 1⟩, some 2, "B", "T", "A2"⟩]).map Prod.snd).sum
      = ((distCharTotal [⟨⟨2024, 3, 1⟩, some 1, "B", "T", "A1"⟩,
        ⟨⟨2024, 3, 1⟩, some 2, "B", "T", "A2"⟩]).map Prod.snd).sum :=
  topn_preserves_total _ 1 (by norm_num)

lemma addTo_ne_nil {κ : Type} [DecidableEq κ] (acc : List (κ × ℚ)) (k : κ) (v : ℚ) :
    addTo acc k v ≠ [] := by
  cases acc with
  | nil => simp [addTo]
  | cons p t =>
    obtain ⟨a, b⟩ := p
    show (if a = k then (a, b + v) :: t else (a, b) :: addTo t k v) ≠ []
    split <;> simp

lemma foldl_addTo_ne_nil {κ : Type} [DecidableEq κ] (l : List (κ × ℚ)) :
    ∀ acc : List (κ × ℚ), acc ≠ [] →
      l.foldl (fun a kv => addTo a kv.1 kv.2) acc ≠ [] := by
  induction l with
  | nil => intro acc h; exact h
  | cons x xs ih => intro acc _; exact ih (addTo acc x.1 x.2) (addTo_ne_nil acc x.1 x.2)

lemma groupSum_ne_nil {κ : Type} [DecidableEq κ] {l : List (κ × ℚ)} (h : l ≠ []) :
    groupSum l ≠ [] := by
  cases l with
  | nil => exact absurd rfl h
  | cons x xs =>
    show (x :: xs).foldl (fun a kv => addTo a kv.1 kv.2) [] ≠ []
    rw [List.foldl_cons]
    exact foldl_addTo_ne_nil xs (addTo [] x.1 x.2) (addTo_ne_nil [] x.1 x.2)

lemma mem_keys_addTo {κ : Type} [DecidableEq κ] {acc : List (κ × ℚ)} {k x : κ} {v : ℚ}
    (h : x ∈ (addTo acc k v).map Prod.fst) : x = k ∨ x ∈ acc.map Prod.fst := by
  induction acc with
  | nil => simpa [addTo] using h
  | cons p t ih =>
    obtain ⟨a, b⟩ := p
    have hsplit : addTo ((a, b) :: t) k v
        = if a = k then (a, b + v) :: t else (a, b) :: addTo t k v := rfl
    rw [hsplit] at h
    by_cases hak : a = k
    · rw [if_pos hak] at h
      rcases List.mem_cons.mp h with h1 | h1
      · exact Or.inr (by simp [h1])
      · exact Or.inr (by simp at h1 ⊢; tauto)
    · rw [if_neg hak] at h
      rcases List.mem_cons.mp h with h1 | h1
      · exact Or.inr (by simp [h1])
      · rcases ih h1 with h2 | h2
        · exact Or.inl h2
        · exact Or.inr (by simp at h2 ⊢; tauto)

lemma mem_keys_foldl_addTo {κ : Type} [DecidableEq κ] {x : κ} :
    ∀ (l acc : List (κ × ℚ)),
      x ∈ (l.foldl (fun a kv => addTo a kv.1 kv.2) acc).map Prod.fst →
      x ∈ acc.map Prod.fst ∨ x ∈ l.map Prod.fst := by
  intro l
  induction l with
  | nil => intro acc hh; exact Or.inl hh
  | cons p t ih =>
    intro acc hh
    rw [List.foldl_cons] at hh
    rcases ih (addTo acc p.1 p.2) hh with h1 | h1
    · rcases mem_keys_addTo h1 with h2 | h2
      · exact Or.inr (by simp [h2])
      · exact Or.inl h2
    · exact Or.inr (by simp at h1 ⊢; tauto)

lemma mem_keys_groupSum {κ : Type} [DecidableEq κ] {l : List (κ × ℚ)} {x : κ}
    (h : x ∈ (groupSum l).map Prod.fst) : x ∈ l.map Prod.fst := by
  rcases mem_keys_foldl_addTo l [] h with h1 | h1
  · simp at h1
  · exact h1

/-- C10: the `"% no banco"` computation divides each asset's summed amount
by the bank's total, unguarded: for every bank that appears in `por_banco`
and whose amounts sum to zero (possible, since amounts are sign-preserving
and may be negative), the per-bank table is nonempty and every one of its
percentage entries is the result of a division by zero (a non-finite
value), rather than the loop raising beforehand or skipping the bank. -/
theorem pct_no_banco_divides_by_zero (canon : List CanonRow) (banco : String)
    (hmem : banco ∈ (porBanco canon).map Prod.fst)
    (hzero : bankTotal canon banco = 0) :
    pctNoBanco canon banco ≠ [] ∧ ∀ e ∈ pctNoBanco canon banco, e.2 = none := by
  constructor
  · have hkey : banco ∈ (canon.map (fun c => (c.banco, c.valor.getD 0))).map Prod.fst := by
      apply mem_keys_groupSum
      have hperm : (porBanco canon).map Prod.fst
          = (List.insertionSort valGE
              (groupSum (canon.map (fun c => (c.banco, c.valor.getD 0))))).map Prod.fst := rfl
      rw [hperm] at hmem
      exact List.mem_map.mpr (by
        obtain ⟨p, hp, he⟩ := List.mem_map.mp hmem
        exact ⟨p, (List.perm_insertionSort valGE _).mem_iff.mp hp, he⟩)
    have hrow : ∃ c ∈ canon, c.banco = banco := by
      rw [List.map_map] at hkey
      obtain ⟨c, hc, he⟩ := List.mem_map.mp hkey
      exact ⟨c, hc, he⟩
    obtain ⟨c, hc, he⟩ := hrow
    have hbr : bankRows canon banco ≠ [] := by
      apply List.ne_nil_of_mem (a := c)
      exact List.mem_filter.mpr ⟨hc, by simp [he]⟩
    have hdet : bankDetail canon banco ≠ [] := by
      unfold bankDetail sortValDesc
      intro hnil
      have hlen := congrArg List.length hnil
      rw [List.length_insertionSort] at hlen
      exact groupSum_ne_nil
        (fun hmapnil => hbr (List.map_eq_nil_iff.mp hmapnil))
        (List.length_eq_zero.mp hlen)
    unfold pctNoBanco
    intro hnil
    exact hdet (List.map_eq_nil_iff.mp hnil)
  · intro e he
    unfold pctNoBanco at he
    obtain ⟨kv, _, he2⟩ := List.mem_map.mp he
    rw [← he2]
    simp [hzero]

/-- Witness for C10: bank `"X"` holds `+10` and `-10`; its total is zero and
both of its percentage entries are divisions by zero. -/
theorem pct_no_banco_divides_by_zero_witness :
    pctNoBanco [⟨⟨2024, 3, 1⟩, some 10, "X", "T", "A"⟩,
        ⟨⟨2024, 3, 1⟩, some (-10), "X", "T", "B"⟩] "X" ≠ []
    ∧ ∀ e ∈ pctNoBanco [⟨⟨2024, 3, 1⟩, some 10, "X", "T", "A"⟩,
        ⟨⟨2024, 3, 1⟩, some (-10), "X", "T", "B"⟩] "X", e.2 = none :=
  pct_no_banco_divides_by_zero _ "X" (by decide)
    (by show ((10 : ℚ) :: (-10) :: []).sum = 0; norm_num)

/-- Witness for the amended C4: one raw row with a parseable date and a
missing amount normalizes to one canonical row whose date is the parsed
date. -/
theorem canonical_dates_witness :
    ([⟨⟨2024, 3, 2⟩, none, "Inter", "RF", "CDB"⟩] : List CanonRow).map (fun c => c.data)
      = (normalizeDatesCode (([⟨some ("02/03/2024".toList), none, some "Inter", some "RF",
          some "CDB"⟩] : List RawRow).map (fun r => r.data))).filterMap id :=
  canonical_dates_are_the_parsed_dates
    [⟨some ("02/03/2024".toList), none, some "Inter", some "RF", some "CDB"⟩]
    [⟨⟨2024, 3, 2⟩, none, "Inter", "RF", "CDB"⟩] (by decide)

/-- C8: the upload loop tries UTF-8 first and uses its parse when it
succeeds; when the UTF-8 decode-or-parse attempt raises, it falls back to
Latin-1, whose decoding is total on arbitrary bytes (one char per byte);
and whenever no encoding's parse produced a non-empty table, the load
stops with an error and yields no table at all. -/
theorem csv_load_loop_spec (raw : List Byte) :
    (∀ t, (decodeUtf8 raw).bind parseCSV = some t → loadCSV raw = some t)
    ∧ ((decodeUtf8 raw).bind parseCSV = none → loadCSV raw = parseCSV (decodeLatin1 raw))
    ∧ (decodeLatin1 raw).length = raw.length
    ∧ ((∀ t, loadCSV raw = some t → t.rows = []) → loadResult raw = none) := by
  refine ⟨?_, ?_, by simp [decodeLatin1], ?_⟩
  · intro t h
    unfold loadCSV
    rw [h]
  · intro h
    unfold loadCSV
    rw [h]
  · intro h
    unfold loadResult
    cases hl : loadCSV raw with
    | none => rfl
    | some df =>
      show (if df.rows = [] then none else some df) = none
      rw [if_pos (h df hl)]

/-- Witness for C8: the single byte `0xFF` is invalid UTF-8; Latin-1
decodes it, but the one-character text has no delimiter, so the load
produces no table. -/
theorem csv_load_loop_witness : loadResult [255] = none := by
  apply (csv_load_loop_spec [255]).2.2.2
  intro t h
  rw [show loadCSV [255] = none from by decide] at h
  exact Option.noConfusion h
